import Mathlib

/-!
Shallow embedding of `vedo/assembly.py`: the `Assembly` composite container
and the `procrustesAlignment` wrapper function.

Python objects that may appear in an assembly (renderables, nested lists,
`None`) are modelled by the inductive type `PyVal`.  Renderable objects are
records of the attributes the module reads or writes; an attribute that a
Python object may simply not have (`name`, `base`, `top`) is an `Option`,
with `none` standing for "attribute absent" so that `hasattr` checks and
`AttributeError`s can be rendered faithfully.  Fallible constructors and
methods return `Except PyErr`.  The external VTK Procrustes filter is out of
scope of the module (the spec delegates all alignment math to the toolkit),
so `procrustesAlignment` takes the filter as an explicit function argument
and the theorems quantify over it.
-/

set_option autoImplicit false

namespace Vedo

/-- A 3D point. The module performs no arithmetic on coordinates (all of the
geometry is delegated to the external toolkit), so integer coordinates
suffice for the embedding. -/
abbrev Pt : Type := Int × Int × Int

/-- Python exception kinds observable from this module. -/
inductive PyErr where
  | runtimeError
  | indexError
  | attributeError
  | typeError
deriving DecidableEq, Repr

/-- Modelled from the spec: a renderable object ("an opaque handle to a
drawable 3D entity; has identity (optional name), a point count, a
shape/topology (point geometry), and visual properties").  `rid` is the
Python object identity (two objects with equal content are still distinct
when their `rid`s differ); `pts` is the underlying point set (`polydata`);
`name`, `base` and `top` are `none` when the Python object lacks the
attribute; `prop` is an opaque handle to the shared visual property object;
`flagText` is the label metadata copied alongside the name. -/
structure Renderable where
  rid : Nat
  pts : List Pt
  name : Option (List Char)
  flagText : List Char
  prop : Nat
  base : Option Pt
  top : Option Pt
deriving DecidableEq, Repr

/-- Modelled from the spec: the point count `N()` of a renderable ("each
exposing a point count"), the number of points of its geometry. -/
def Renderable.N (s : Renderable) : Nat :=
  s.pts.length

/-- Modelled from the spec: `polydata()`, the "underlying geometric
point-set representation" of a renderable. -/
def Renderable.polydata (s : Renderable) : List Pt :=
  s.pts

/-- A Python value that can be handed to `Assembly`: a renderable object, a
(list/tuple) sequence of values, or `None`. -/
inductive PyVal where
  | obj : Renderable → PyVal
  | listv : List PyVal → PyVal
  | none : PyVal

/-- Decidable equality on `PyVal`, the model of Python `==` used by `in`
(the renderables carry their object identity in `rid`, so value equality
with distinct identities coincides with Python object comparison). -/
def PyVal.decEqV : (a b : PyVal) → Decidable (a = b)
  | .obj r1, .obj r2 =>
      if h : r1 = r2 then .isTrue (by rw [h]) else .isFalse (fun hh => by cases hh; exact h rfl)
  | .obj _, .listv _ => .isFalse (fun h => by cases h)
  | .obj _, .none => .isFalse (fun h => by cases h)
  | .listv _, .obj _ => .isFalse (fun h => by cases h)
  | .listv l1, .listv l2 =>
      match decEqL l1 l2 with
      | .isTrue h => .isTrue (by rw [h])
      | .isFalse h => .isFalse (fun hh => by cases hh; exact h rfl)
  | .listv _, .none => .isFalse (fun h => by cases h)
  | .none, .obj _ => .isFalse (fun h => by cases h)
  | .none, .listv _ => .isFalse (fun h => by cases h)
  | .none, .none => .isTrue rfl
where
  /-- Elementwise decidable equality of value lists. -/
  decEqL : (a b : List PyVal) → Decidable (a = b)
  | [], [] => .isTrue rfl
  | [], _ :: _ => .isFalse (fun h => by cases h)
  | _ :: _, [] => .isFalse (fun h => by cases h)
  | a :: as, b :: bs =>
      match PyVal.decEqV a b, decEqL as bs with
      | .isTrue h1, .isTrue h2 => .isTrue (by rw [h1, h2])
      | .isFalse h1, _ => .isFalse (fun hh => by cases hh; exact h1 rfl)
      | _, .isFalse h2 => .isFalse (fun hh => by cases hh; exact h2 rfl)

instance : DecidableEq PyVal := PyVal.decEqV

/-- Python truthiness of a value: `None` is falsy, a sequence is truthy iff
non-empty, a renderable object is truthy. -/
def PyVal.truthy : PyVal → Bool
  | .obj _ => true
  | .listv l => !l.isEmpty
  | .none => false

/-- Modelled from the spec: `utils.flatten` (the module imports it from
`vedo.utils`, which is not part of this repository slice): "a single
explicit flatten-once preprocessing step over a tree of sequences, producing
one ordered list; depth is unbounded but finite" — nested sequences are
recursively flattened, every non-sequence leaf (renderables and `None`
alike) is kept in order. -/
def pyFlattenL : List PyVal → List PyVal
  | [] => []
  | .listv l :: vs => pyFlattenL l ++ pyFlattenL vs
  | .obj r :: vs => .obj r :: pyFlattenL vs
  | .none :: vs => .none :: pyFlattenL vs

/-- The state of an `Assembly`: the stored Python-level list of actors
(`self.actors`), the parts registered on the underlying `vtkAssembly` scene
node (via `AddPart`), the `base`/`top` anchors, and the alignment metadata
(`self.transform` and `self.info` under its single used key `mean`). -/
structure Assembly where
  actors : List PyVal
  parts : List PyVal
  base : Option Pt
  top : Option Pt
  transform : Option Nat
  infoMean : Option (List Pt)
deriving DecidableEq

/-- `hasattr(m, "top")` for a value: only a renderable carrying the `top`
attribute has it. -/
def PyVal.hasTop : PyVal → Bool
  | .obj r => r.top.isSome
  | _ => false

/-- The argument-normalisation step of `Assembly.__init__`: with exactly one
positional argument, `meshs = meshs[0]` (taken as the sequence itself, a
`TypeError` at the later `len(meshs)` if it is not one); otherwise
`meshs = utils.flatten(meshs)` over the argument tuple. -/
def extractMeshs (args : List PyVal) : Except PyErr (List PyVal) :=
  match args with
  | [m] =>
      match m with
      | .listv l => .ok l
      | _ => .error .typeError
  | _ => .ok (pyFlattenL args)

/-- The `base`/`top` step of `Assembly.__init__`:
`if len(meshs) and hasattr(meshs[0], "top")` copy `meshs[0].base` and
`meshs[0].top`; reading `.base` raises `AttributeError` when the first
element has a `top` attribute but no `base` attribute. -/
def assemblyBaseTop (meshs : List PyVal) : Except PyErr (Option Pt × Option Pt) :=
  match meshs with
  | .obj r :: _ =>
      if r.top.isSome then
        match r.base with
        | some b => .ok (some b, r.top)
        | Option.none => .error .attributeError
      else
        .ok (Option.none, Option.none)
  | _ => .ok (Option.none, Option.none)

/-- `Assembly.__init__(*meshs)`: normalise the arguments into the stored
actor list, copy `base`/`top` from the first element when it exposes `top`,
and register every truthy element as a part of the composite scene node
(`for a in meshs: if a: self.AddPart(a)`). -/
def assemblyInit (args : List PyVal) : Except PyErr Assembly := do
  let meshs ← extractMeshs args
  let bt ← assemblyBaseTop meshs
  .ok { actors := meshs
        parts := meshs.filter PyVal.truthy
        base := bt.1
        top := bt.2
        transform := Option.none
        infoMean := Option.none }

/-- `vtkAssembly.AddPart`: register one more child part on the composite
scene node. -/
def Assembly.addPart (asm : Assembly) (v : PyVal) : Assembly :=
  { asm with parts := asm.parts ++ [v] }

/-- `Assembly.__add__(meshs)`: a list argument has each element registered
as a part, anything else is registered itself; returns the assembly. -/
def Assembly.addOp (asm : Assembly) (meshs : PyVal) : Assembly :=
  match meshs with
  | .listv l => l.foldl Assembly.addPart asm
  | v => asm.addPart v

/-- `Assembly.__contains__(name)`: Python `name in self.actors`, membership
by `==` in the stored actor list. -/
def Assembly.containsM (asm : Assembly) (name : PyVal) : Bool :=
  asm.actors.contains name

/-- `True` iff the pattern is a contiguous leading segment of the text
(one candidate position of Python substring search). -/
def leadMatch : List Char → List Char → Bool
  | [], _ => true
  | _ :: _, [] => false
  | a :: as, b :: bs => a == b && leadMatch as bs

/-- Python `needle in hay` on strings: `needle` occurs contiguously in
`hay` (the empty needle always occurs). -/
def hasSub (needle : List Char) : List Char → Bool
  | [] => leadMatch needle []
  | c :: rest => leadMatch needle (c :: rest) || hasSub needle rest

/-- The selector accepted by `Assembly.unpack`: `None`, an `int`, or a
`str`. -/
inductive Selector where
  | noneSel : Selector
  | idx : Int → Selector
  | str : List Char → Selector

/-- Python list indexing `l[i]`: a negative index counts from the end, an
index outside `[-len, len)` raises `IndexError`. -/
def pyGet (l : List PyVal) (i : Int) : Except PyErr PyVal :=
  let j := if i < 0 then i + (l.length : Int) else i
  if j < 0 then .error .indexError
  else
    match l.get? j.toNat with
    | some x => .ok x
    | Option.none => .error .indexError

/-- The string branch of `Assembly.unpack`: scan the actors in order and
return the first whose `name` contains the string; reading `.name` off an
element without that attribute raises `AttributeError`; no match falls
through to `None`. -/
def unpackStr (s : List Char) : List PyVal → Except PyErr PyVal
  | [] => .ok .none
  | .obj r :: rest =>
      match r.name with
      | some nm => if hasSub s nm then .ok (.obj r) else unpackStr s rest
      | Option.none => .error .attributeError
  | _ :: _ => .error .attributeError

/-- `Assembly.unpack(i=None)`: `None` returns the stored actor list, an
`int` indexes into it, a `str` returns the first actor whose name contains
it (or `None`). -/
def Assembly.unpack (asm : Assembly) : Selector → Except PyErr PyVal
  | .noneSel => .ok (.listv asm.actors)
  | .idx i => pyGet asm.actors i
  | .str s => unpackStr s asm.actors

/-- Modelled from the spec: per-part `clone()` (implemented by the sibling
mesh abstraction, outside this repository slice): a deep copy, "a distinct
object from its source (not the same reference) but equivalent content" —
same attributes, fresh object identity. -/
def Renderable.cloneR (r : Renderable) (fresh : Nat) : Renderable :=
  { r with rid := fresh }

/-- The content of a renderable: every attribute except the object
identity. -/
def Renderable.content (r : Renderable) :
    List Pt × Option (List Char) × List Char × Nat × Option Pt × Option Pt :=
  (r.pts, r.name, r.flagText, r.prop, r.base, r.top)

/-- The loop of `Assembly.clone`: `newlist = [a.clone() for a in
self.actors]`, allocating a fresh identity for each clone; an element
without a `clone` method raises `AttributeError`. -/
def cloneActors (fresh : Nat) : List PyVal → Except PyErr (List PyVal)
  | [] => .ok []
  | .obj r :: rest => do
      let t ← cloneActors (fresh + 1) rest
      .ok (.obj (r.cloneR fresh) :: t)
  | _ :: _ => .error .attributeError

/-- `Assembly.clone()`: clone every stored actor in order and build a new
`Assembly` from the resulting list (passed as the single argument). -/
def Assembly.cloneA (asm : Assembly) (fresh : Nat) : Except PyErr Assembly := do
  let newlist ← cloneActors fresh asm.actors
  assemblyInit [PyVal.listv newlist]

/-- The output of the external `vtkProcrustesAlignmentFilter` after
`Update()`: one aligned block per input (`GetOutput().GetBlock(i)`), the
mean point set (`GetMeanPoints()`), and an opaque handle to the landmark
transform. -/
structure ProcrustesOut where
  blocks : List (List Pt)
  meanPoints : List Pt
  transform : Nat

/-- The type of the external Procrustes filter: from the rigid flag and the
grouped input point sets to the filter output.  The alignment math lives in
the external toolkit, so the development quantifies over this function. -/
abbrev ProcrustesFilter : Type := Bool → List (List Pt) → ProcrustesOut

/-- `GetOutput().GetBlock(i)` of the filter: the `i`-th aligned point set
(an out-of-range block reads back as an empty mesh). -/
def getBlock (blocks : List (List Pt)) (i : Nat) : List Pt :=
  blocks.getD i []

/-- Modelled from the spec: `Mesh(poly)` (from the sibling `vedo.mesh`
module, outside this repository slice): "construction from a raw point-set
representation" — a fresh renderable wrapping the given points, with an
empty default name and label, a fresh default property, and no anchor
attributes. -/
def Mesh.ofPoly (rid : Nat) (poly : List Pt) : Renderable :=
  { rid := rid
    pts := poly
    name := some []
    flagText := []
    prop := 0
    base := Option.none
    top := Option.none }

/-- The validation/grouping loop of `procrustesAlignment`:
`for source in sources: if sources[0].N() != source.N(): raise
RuntimeError(); group.AddInputData(source.polydata())`. -/
def groupInputs (first : Renderable) : List Renderable → Except PyErr (List (List Pt))
  | [] => .ok []
  | s :: rest =>
      if first.N ≠ s.N then .error .runtimeError
      else do
        let r ← groupInputs first rest
        .ok (s.polydata :: r)

/-- The body of the output loop of `procrustesAlignment` for the `i`-th
source `s`: `mesh = Mesh(poly)` with `poly = GetBlock(i)`, then
`mesh.SetProperty(s.GetProperty())`, then, when the source has a `name`
attribute, `mesh.name = s.name; mesh.flagText = s.flagText`. -/
def alignMesh (blocks : List (List Pt)) (rid : Nat) (i : Nat) (s : Renderable) : Renderable :=
  let mesh0 := Mesh.ofPoly rid (getBlock blocks i)
  let mesh1 := { mesh0 with prop := s.prop }
  match s.name with
  | some nm => { mesh1 with name := some nm, flagText := s.flagText }
  | Option.none => mesh1

/-- The output loop of `procrustesAlignment`: for each source (with a fresh
identity per created mesh), build the wrapped aligned mesh.  The embedding
threads the sources through the iteration explicitly, returning the
post-loop sources next to the built actor list, so that the absence of
writes to the sources is a theorem about the definition rather than a
modelling assumption. -/
def buildActs (blocks : List (List Pt)) (fresh : Nat) :
    Nat → List Renderable → List Renderable × List Renderable
  | _, [] => ([], [])
  | i, s :: rest =>
      let r := buildActs blocks fresh (i + 1) rest
      (s :: r.1, alignMesh blocks (fresh + i) i s :: r.2)

/-- `procrustesAlignment(sources, rigid=False)`: validate that every source
has the first source's point count (raising `RuntimeError` otherwise), run
the external filter over the grouped point sets, wrap each aligned block
into a new mesh carrying the source's property and name, collect the meshes
into an `Assembly`, and attach the landmark transform and the mean points.
Returns the assembly together with the post-call sources (the threaded
state). -/
def procrustesAlignment (filterF : ProcrustesFilter) (fresh : Nat)
    (sources : List Renderable) (rigid : Bool) :
    Except PyErr (Assembly × List Renderable) := do
  let polys ←
    match sources with
    | [] => Except.ok ([] : List (List Pt))
    | s0 :: _ => groupInputs s0 sources
  let out := filterF rigid polys
  let r := buildActs out.blocks fresh 0 sources
  let assem ← assemblyInit [PyVal.listv (r.2.map PyVal.obj)]
  .ok ({ assem with transform := some out.transform, infoMean := some out.meanPoints }, r.1)

/-- `True` when the first stored element does not trip the asymmetric
anchor check of `Assembly.__init__`: a first element carrying a `top`
attribute but no `base` attribute makes the constructor raise, anything
else is safe. -/
def headSafe (l : List PyVal) : Bool :=
  match l with
  | .obj r :: _ => !(r.top.isSome && !r.base.isSome)
  | _ => true

/-- `hasattr(meshs[0], "top")` over the normalised argument list (false on
an empty list). -/
def headExposesTop (l : List PyVal) : Bool :=
  match l with
  | m :: _ => m.hasTop
  | [] => false

/-- The predicate used by the string branch of `unpack`: the value is a
renderable whose `name` contains the string. -/
def nameHas (s : List Char) : PyVal → Bool
  | .obj r =>
      match r.name with
      | some nm => hasSub s nm
      | Option.none => false
  | _ => false

/-- The first stored actor whose name contains the string, or `None` when
no actor matches: the reference description of `unpack(str)`. -/
def firstNameMatch (s : List Char) (l : List PyVal) : PyVal :=
  match l.find? (nameHas s) with
  | some m => m
  | Option.none => .none

/-- Every stored element is a renderable exposing a `name` attribute (the
implicit domain of name-based lookups). -/
def allNamed (l : List PyVal) : Bool :=
  l.all fun a =>
    match a with
    | .obj r => r.name.isSome
    | _ => false

/-! Concrete sample objects used by the witness and counterexample
theorems. -/

/-- A sample renderable named "alpha" with one point. -/
def rWa : Renderable :=
  ⟨1, [(0, 0, 0)], some ['a', 'l', 'p', 'h', 'a'], [], 10, Option.none, Option.none⟩

/-- A sample renderable named "beta" with one point. -/
def rWb : Renderable :=
  ⟨2, [(1, 0, 0)], some ['b', 'e', 't', 'a'], [], 11, Option.none, Option.none⟩

/-- A sample renderable named "gamma" with one point. -/
def rWc : Renderable :=
  ⟨3, [(2, 0, 0)], some ['g', 'a', 'm', 'm', 'a'], [], 12, Option.none, Option.none⟩

/-- A sample renderable with two points (a point-count mismatch against the
one-point samples). -/
def rWn2 : Renderable :=
  ⟨4, [(0, 0, 0), (1, 1, 1)], some ['d', 'e', 'l', 't', 'a'], [], 13, Option.none, Option.none⟩

/-- A sample renderable exposing a `top` attribute but no `base`
attribute. -/
def rWtop : Renderable :=
  ⟨5, [], Option.none, [], 0, Option.none, some (5, 5, 5)⟩

/-- A sample renderable exposing both `base` and `top` attributes. -/
def rWbt : Renderable :=
  ⟨6, [(0, 0, 1)], some ['r', 'o', 'd'], [], 14, some (0, 0, 0), some (0, 0, 9)⟩

/-- A sample stand-in for the external Procrustes filter: echoes its inputs
as the aligned blocks. -/
def fW : ProcrustesFilter := fun _ ps => ⟨ps, [], 7⟩

/-- A sample assembly holding the renderables "alpha" and "beta". -/
def asmW : Assembly :=
  ⟨[.obj rWa, .obj rWb], [.obj rWa, .obj rWb], Option.none, Option.none,
    Option.none, Option.none⟩

/-! ## Helper lemmas -/

theorem alignMesh_pts (blocks : List (List Pt)) (rid i : Nat) (s : Renderable) :
    (alignMesh blocks rid i s).pts = getBlock blocks i := by
  unfold alignMesh
  cases s.name <;> rfl

theorem alignMesh_top (blocks : List (List Pt)) (rid i : Nat) (s : Renderable) :
    (alignMesh blocks rid i s).top = Option.none := by
  unfold alignMesh
  cases s.name <;> rfl

theorem buildActs_fst (blocks : List (List Pt)) (fresh : Nat) :
    ∀ (l : List Renderable) (i : Nat), (buildActs blocks fresh i l).1 = l := by
  intro l
  induction l with
  | nil => intro i; rfl
  | cons s rest ih => intro i; simp [buildActs, ih]

theorem buildActs_get (blocks : List (List Pt)) (fresh : Nat) :
    ∀ (l : List Renderable) (i j : Nat),
      (buildActs blocks fresh i l).2.get? j
        = (l.get? j).map (fun s => alignMesh blocks (fresh + (i + j)) (i + j) s) := by
  intro l
  induction l with
  | nil => intro i j; simp [buildActs]
  | cons s rest ih =>
      intro i j
      cases j with
      | zero => simp [buildActs]
      | succ j =>
          have h := ih (i + 1) j
          simp only [buildActs, List.get?_cons_succ, h]
          have harith : i + 1 + j = i + (j + 1) := by omega
          rw [harith]

theorem buildActs_len (blocks : List (List Pt)) (fresh : Nat) :
    ∀ (l : List Renderable) (i : Nat), (buildActs blocks fresh i l).2.length = l.length := by
  intro l
  induction l with
  | nil => intro i; rfl
  | cons s rest ih => intro i; simp [buildActs, ih]

theorem extractMeshs_single (l : List PyVal) :
    extractMeshs [PyVal.listv l] = .ok l := rfl

theorem exbind_ok {ε α β : Type} (a : α) (f : α → Except ε β) :
    (Except.ok a : Except ε α).bind f = f a := rfl

theorem exbind_err {ε α β : Type} (e : ε) (f : α → Except ε β) :
    (Except.error e : Except ε α).bind f = Except.error e := rfl

theorem assemblyInit_ok (args l : List PyVal) (bt : Option Pt × Option Pt)
    (he : extractMeshs args = .ok l) (hbt : assemblyBaseTop l = .ok bt) :
    assemblyInit args
      = .ok ⟨l, l.filter PyVal.truthy, bt.1, bt.2, Option.none, Option.none⟩ := by
  have h1 : assemblyInit args
      = (extractMeshs args).bind fun meshs =>
          (assemblyBaseTop meshs).bind fun bt =>
            Except.ok ⟨meshs, meshs.filter PyVal.truthy, bt.1, bt.2,
              Option.none, Option.none⟩ := rfl
  rw [h1, he, exbind_ok, hbt, exbind_ok]

theorem assemblyInit_listArg (l : List PyVal) (bt : Option Pt × Option Pt)
    (h : assemblyBaseTop l = .ok bt) :
    assemblyInit [PyVal.listv l]
      = .ok ⟨l, l.filter PyVal.truthy, bt.1, bt.2, Option.none, Option.none⟩ :=
  assemblyInit_ok [PyVal.listv l] l bt (extractMeshs_single l) h

theorem assemblyInit_err (args l : List PyVal)
    (he : extractMeshs args = .ok l) (hbt : assemblyBaseTop l = .error .attributeError) :
    assemblyInit args = .error .attributeError := by
  have h1 : assemblyInit args
      = (extractMeshs args).bind fun meshs =>
          (assemblyBaseTop meshs).bind fun bt =>
            Except.ok ⟨meshs, meshs.filter PyVal.truthy, bt.1, bt.2,
              Option.none, Option.none⟩ := rfl
  rw [h1, he, exbind_ok, hbt, exbind_err]

theorem assemblyBaseTop_isOk (l : List PyVal) (h : headSafe l = true) :
    ∃ bt, assemblyBaseTop l = .ok bt := by
  cases l with
  | nil => exact ⟨_, rfl⟩
  | cons m rest =>
      cases m with
      | obj r =>
          cases ht : r.top with
          | none => exact ⟨(Option.none, Option.none), by simp [assemblyBaseTop, ht]⟩
          | some tp =>
              cases hb : r.base with
              | none => simp [headSafe, ht, hb] at h
              | some b => exact ⟨(some b, some tp), by simp [assemblyBaseTop, ht, hb]⟩
      | listv l2 => exact ⟨(Option.none, Option.none), rfl⟩
      | none => exact ⟨(Option.none, Option.none), rfl⟩

theorem assemblyBaseTop_cons_obj_noTop (r : Renderable) (rest : List PyVal)
    (h : r.top = Option.none) :
    assemblyBaseTop (.obj r :: rest) = .ok (Option.none, Option.none) := by
  simp [assemblyBaseTop, h]

theorem groupInputs_ok (first : Renderable) :
    ∀ l : List Renderable, (∀ s ∈ l, s.N = first.N) →
      groupInputs first l = .ok (l.map Renderable.polydata) := by
  intro l
  induction l with
  | nil => intro _; rfl
  | cons s rest ih =>
      intro h
      have hs : s.N = first.N := h s (by simp)
      have hrest := ih fun x hx => h x (by simp [hx])
      simp only [groupInputs]
      rw [if_neg (not_ne_iff.mpr hs.symm), hrest]
      rfl

theorem groupInputs_error (first : Renderable) :
    ∀ (l : List Renderable) (s : Renderable), s ∈ l → s.N ≠ first.N →
      groupInputs first l = .error .runtimeError := by
  intro l
  induction l with
  | nil => intro s hs; cases hs
  | cons a rest ih =>
      intro s hs hne
      rcases List.mem_cons.mp hs with heq | hmem
      · subst heq
        simp only [groupInputs]
        rw [if_pos (fun hh : first.N = s.N => hne hh.symm)]
      · simp only [groupInputs]
        by_cases ha : first.N = a.N
        · rw [if_neg (not_ne_iff.mpr ha), ih s hmem hne]
          rfl
        · rw [if_pos ha]

theorem unpackStr_eq_firstNameMatch (s : List Char) :
    ∀ l : List PyVal, allNamed l = true → unpackStr s l = .ok (firstNameMatch s l) := by
  intro l
  induction l with
  | nil => intro _; rfl
  | cons a rest ih =>
      intro h
      simp only [allNamed, List.all_cons, Bool.and_eq_true] at h
      have hrest : allNamed rest = true := h.2
      cases a with
      | obj r =>
          cases hn : r.name with
          | none =>
              have h1 : r.name.isSome = true := h.1
              rw [hn] at h1
              simp at h1
          | some nm =>
              by_cases hsub : hasSub s nm = true
              · have hp : nameHas s (PyVal.obj r) = true := by
                  simp [nameHas, hn, hsub]
                simp only [unpackStr, hn]
                rw [if_pos hsub]
                simp [firstNameMatch, List.find?_cons_of_pos _ hp]
              · have hp2 : ¬ nameHas s (PyVal.obj r) = true := by
                  simp [nameHas, hn]
                  exact Bool.not_eq_true _ |>.mp hsub
                have hF : firstNameMatch s (PyVal.obj r :: rest) = firstNameMatch s rest := by
                  unfold firstNameMatch
                  rw [List.find?_cons_of_neg _ hp2]
                rw [hF]
                simp only [unpackStr, hn]
                rw [if_neg hsub]
                exact ih hrest
      | listv l2 => simp at h
      | none => simp at h

theorem foldl_addPart_actors (l : List PyVal) :
    ∀ asm : Assembly, (l.foldl Assembly.addPart asm).actors = asm.actors := by
  induction l with
  | nil => intro asm; rfl
  | cons a rest ih => intro asm; simp [List.foldl, ih, Assembly.addPart]

theorem foldl_addPart_parts (l : List PyVal) :
    ∀ asm : Assembly, (l.foldl Assembly.addPart asm).parts = asm.parts ++ l := by
  induction l with
  | nil => intro asm; simp
  | cons a rest ih => intro asm; simp [List.foldl, ih, Assembly.addPart]

theorem unpack_only_reads_actors (a1 a2 : Assembly) (h : a1.actors = a2.actors) :
    ∀ sel, a1.unpack sel = a2.unpack sel := by
  intro sel
  cases sel <;> simp [Assembly.unpack, h]

theorem cloneActors_ok :
    ∀ (l : List PyVal) (fresh : Nat), (∀ a ∈ l, ∃ r, a = PyVal.obj r) →
      ∃ l2, cloneActors fresh l = .ok l2 ∧ l2.length = l.length ∧
        ∀ (j : Nat) (r : Renderable), l.get? j = some (.obj r) →
          l2.get? j = some (.obj (r.cloneR (fresh + j))) := by
  intro l
  induction l with
  | nil =>
      intro fresh _
      exact ⟨[], rfl, rfl, by intro j r h; simp at h⟩
  | cons a rest ih =>
      intro fresh h
      obtain ⟨r0, hr0⟩ := h a (by simp)
      subst hr0
      obtain ⟨l2, hl2, hlen, hget⟩ := ih (fresh + 1) (fun x hx => h x (by simp [hx]))
      refine ⟨.obj (r0.cloneR fresh) :: l2, ?_, by simp [hlen], ?_⟩
      · simp only [cloneActors]
        rw [hl2]
        rfl
      · intro j r hj
        cases j with
        | zero =>
            simp at hj
            subst hj
            simp
        | succ j =>
            simp only [List.get?_cons_succ] at hj ⊢
            have := hget j r hj
            have harith : fresh + 1 + j = fresh + (j + 1) := by omega
            rw [harith] at this
            exact this

theorem exbind_ok_inv {ε α β : Type} (e : Except ε α) (f : α → Except ε β) (b : β)
    (h : e.bind f = .ok b) : ∃ a, e = .ok a ∧ f a = .ok b := by
  cases e with
  | ok a => exact ⟨a, rfl, h⟩
  | error err =>
      rw [exbind_err] at h
      exact absurd h (by simp)

theorem procrustesAlignment_cons (f : ProcrustesFilter) (fresh : Nat)
    (s0 : Renderable) (rest : List Renderable) (rigid : Bool) :
    procrustesAlignment f fresh (s0 :: rest) rigid
      = (groupInputs s0 (s0 :: rest)).bind fun polys =>
          (assemblyInit [PyVal.listv
              (((buildActs (f rigid polys).blocks fresh 0 (s0 :: rest)).2).map
                PyVal.obj)]).bind fun assem =>
            Except.ok ({ assem with
                          transform := some (f rigid polys).transform
                          infoMean := some (f rigid polys).meanPoints },
                       (buildActs (f rigid polys).blocks fresh 0 (s0 :: rest)).1) := rfl

theorem procrustesAlignment_nil (f : ProcrustesFilter) (fresh : Nat) (rigid : Bool) :
    procrustesAlignment f fresh [] rigid
      = .ok ({ actors := [], parts := [], base := Option.none, top := Option.none,
               transform := some (f rigid []).transform,
               infoMean := some (f rigid []).meanPoints }, []) := rfl

/-! ## Claim theorems -/

/-- C5: `Assembly.__contains__(name)` returns `true` iff some entry of the
stored actor sequence equals `name` (value equality against the stored
list), while `unpack(s)` for a string `s` returns the first stored actor
whose name contains `s` as a substring — equality matching and substring
matching are the distinct behaviours of the two operations. -/
theorem contains_equality_unpack_substring (asm : Assembly) :
    (∀ v : PyVal, asm.containsM v = true ↔ v ∈ asm.actors)
    ∧ (∀ s : List Char, allNamed asm.actors = true →
        asm.unpack (.str s) = .ok (firstNameMatch s asm.actors)) := by
  constructor
  · intro v
    simp [Assembly.containsM]
  · intro s h
    exact unpackStr_eq_firstNameMatch s asm.actors h

/-- Witness for C5: in the sample assembly, membership of "alpha" is by
equality, and the string "et" picks out "beta", the first stored actor
whose name contains it as a substring (no stored name equals "et"). -/
theorem contains_equality_unpack_substring_witness :
    (asmW.containsM (PyVal.obj rWa) = true ↔ PyVal.obj rWa ∈ asmW.actors)
    ∧ asmW.unpack (.str ['e', 't']) = .ok (PyVal.obj rWb) := by
  obtain ⟨h1, h2⟩ := contains_equality_unpack_substring asmW
  exact ⟨h1 (PyVal.obj rWa), h2 ['e', 't'] (by decide)⟩

/-- C6: `unpack(None)` returns the full stored actor sequence unchanged and
in order; `unpack(i)` for an integer `i` at or beyond the sequence length
fails with an `IndexError`; `unpack(s)` for a string matching no stored
actor's name returns `None` rather than raising (over actors that expose a
name). -/
theorem unpack_none_index_missing (asm : Assembly) (s : List Char) :
    asm.unpack .noneSel = .ok (.listv asm.actors)
    ∧ (∀ i : Int, (asm.actors.length : Int) ≤ i →
        asm.unpack (.idx i) = .error .indexError)
    ∧ (allNamed asm.actors = true →
        (∀ a ∈ asm.actors, nameHas s a = false) →
        asm.unpack (.str s) = .ok .none) := by
  refine ⟨rfl, ?_, ?_⟩
  · intro i hi
    have hlen : (0 : Int) ≤ (asm.actors.length : Int) := by positivity
    have h0 : ¬ i < 0 := by omega
    have hget : asm.actors[i.toNat]? = Option.none := by
      apply List.getElem?_eq_none
      omega
    simp [Assembly.unpack, pyGet, h0, hget]
  · intro hnamed hnone
    have h1 := unpackStr_eq_firstNameMatch s asm.actors hnamed
    have hfind : asm.actors.find? (nameHas s) = Option.none := by
      apply List.find?_eq_none.mpr
      intro x hx
      simp [hnone x hx]
    have hfm : firstNameMatch s asm.actors = .none := by
      unfold firstNameMatch
      rw [hfind]
    show unpackStr s asm.actors = .ok .none
    rw [h1, hfm]

/-- Witness for C6: in the sample assembly, `unpack(None)` returns the two
stored actors, index 5 is out of range, and the string "zz" matches no
stored name and yields `None`. -/
theorem unpack_none_index_missing_witness :
    asmW.unpack .noneSel = .ok (.listv asmW.actors)
    ∧ asmW.unpack (.idx 5) = .error .indexError
    ∧ asmW.unpack (.str ['z', 'z']) = .ok .none := by
  obtain ⟨h1, h2, h3⟩ := unpack_none_index_missing asmW ['z', 'z']
  exact ⟨h1, h2 5 (by decide), h3 (by decide) (by decide)⟩

/-- C9: `Assembly.__add__` registers the given object, or each element of a
given list, as further parts of the underlying composite scene node, but
leaves the stored actor sequence unchanged — a subsequent `__contains__` or
`unpack` does not observe the added objects. -/
theorem add_registers_parts_actors_unchanged (asm : Assembly) (m : PyVal) :
    (asm.addOp m).actors = asm.actors
    ∧ (asm.addOp m).parts = asm.parts ++
        (match m with | .listv l => l | v => [v])
    ∧ (∀ v, (asm.addOp m).containsM v = asm.containsM v)
    ∧ (∀ sel, (asm.addOp m).unpack sel = asm.unpack sel) := by
  have hact : (asm.addOp m).actors = asm.actors := by
    cases m with
    | listv l => simp [Assembly.addOp, foldl_addPart_actors]
    | obj r => rfl
    | none => rfl
  refine ⟨hact, ?_, ?_, ?_⟩
  · cases m with
    | listv l => simp [Assembly.addOp, foldl_addPart_parts]
    | obj r => rfl
    | none => rfl
  · intro v
    simp [Assembly.containsM, hact]
  · exact unpack_only_reads_actors _ _ hact

/-- C10: constructing an `Assembly` from a sequence containing null/falsy
entries retains those entries in the stored actor sequence — `unpack(None)`
still returns them, and the stored length counts them — while skipping them
only for registration as parts of the composite scene node. -/
theorem falsy_retained_in_actors (l : List PyVal) (hsafe : headSafe l = true) :
    ∃ asm, assemblyInit [PyVal.listv l] = .ok asm
      ∧ asm.actors = l
      ∧ asm.parts = l.filter PyVal.truthy
      ∧ asm.unpack .noneSel = .ok (.listv l)
      ∧ asm.actors.length = l.length
      ∧ ∀ v ∈ l, v.truthy = false → v ∈ asm.actors ∧ v ∉ asm.parts := by
  obtain ⟨bt, hbt⟩ := assemblyBaseTop_isOk l hsafe
  refine ⟨_, assemblyInit_listArg l bt hbt, rfl, rfl, rfl, rfl, ?_⟩
  intro v hv hf
  refine ⟨hv, ?_⟩
  intro hmem
  have hspec := List.mem_filter.mp hmem
  rw [hf] at hspec
  exact absurd hspec.2 (by simp)

/-- Witness for C10: a concrete two-element sequence with a `None` entry
keeps the `None` among the stored actors but not among the registered
parts. -/
theorem falsy_retained_in_actors_witness :
    headSafe [PyVal.obj rWa, PyVal.none] = true
    ∧ (∃ asm, assemblyInit [PyVal.listv [PyVal.obj rWa, PyVal.none]] = .ok asm
        ∧ asm.actors = [PyVal.obj rWa, PyVal.none]
        ∧ asm.parts = [PyVal.obj rWa, PyVal.none].filter PyVal.truthy
        ∧ asm.unpack .noneSel = .ok (.listv [PyVal.obj rWa, PyVal.none])
        ∧ asm.actors.length = [PyVal.obj rWa, PyVal.none].length
        ∧ ∀ v ∈ [PyVal.obj rWa, PyVal.none], v.truthy = false →
            v ∈ asm.actors ∧ v ∉ asm.parts) :=
  ⟨by decide, falsy_retained_in_actors [PyVal.obj rWa, PyVal.none] (by decide)⟩

/-- C3 counterexample: constructing an `Assembly` from the single nested
argument `[[a, b], c]` stores the two-element sequence `[[a, b], c]` as-is;
the stored sequence is not the flat `[a, b, c]` the claim requires. -/
theorem single_nested_arg_not_flattened_cex :
    (assemblyInit [PyVal.listv [PyVal.listv [PyVal.obj rWa, PyVal.obj rWb],
        PyVal.obj rWc]]).toOption.map Assembly.actors
      = some [PyVal.listv [PyVal.obj rWa, PyVal.obj rWb], PyVal.obj rWc]
    ∧ (assemblyInit [PyVal.listv [PyVal.listv [PyVal.obj rWa, PyVal.obj rWb],
        PyVal.obj rWc]]).toOption.map Assembly.actors
      ≠ some [PyVal.obj rWa, PyVal.obj rWb, PyVal.obj rWc] :=
  ⟨rfl, by decide⟩

/-- C3 amended: a sequence passed as the single constructor argument is
stored as-is, without flattening (a nested list like `[[a, b], c]` stays
nested); flattening into one ordered sequence happens only when the
renderables are passed variadically (any argument count other than one). -/
theorem init_flattening_amended :
    (∀ L : List PyVal, headSafe L = true →
      ∃ asm, assemblyInit [PyVal.listv L] = .ok asm ∧ asm.actors = L)
    ∧ (∀ args : List PyVal, args.length ≠ 1 → headSafe (pyFlattenL args) = true →
      ∃ asm, assemblyInit args = .ok asm ∧ asm.actors = pyFlattenL args) := by
  constructor
  · intro L h
    obtain ⟨bt, hbt⟩ := assemblyBaseTop_isOk L h
    exact ⟨_, assemblyInit_listArg L bt hbt, rfl⟩
  · intro args hlen hsafe
    obtain ⟨bt, hbt⟩ := assemblyBaseTop_isOk (pyFlattenL args) hsafe
    have hex : extractMeshs args = .ok (pyFlattenL args) := by
      match args with
      | [] => rfl
      | [m] => exact absurd rfl hlen
      | a :: b :: rest => rfl
    exact ⟨_, assemblyInit_ok args (pyFlattenL args) bt hex hbt, rfl⟩

/-- Witness for the amended C3: the nested list `[[a, b], c]` as the single
argument is stored as the two-element nested sequence, while the same
values passed as two variadic arguments are flattened to `[a, b, c]`. -/
theorem init_flattening_amended_witness :
    (∃ asm, assemblyInit [PyVal.listv [PyVal.listv [PyVal.obj rWa, PyVal.obj rWb],
        PyVal.obj rWc]] = .ok asm
      ∧ asm.actors = [PyVal.listv [PyVal.obj rWa, PyVal.obj rWb], PyVal.obj rWc])
    ∧ (∃ asm, assemblyInit [PyVal.listv [PyVal.obj rWa, PyVal.obj rWb],
        PyVal.obj rWc] = .ok asm
      ∧ asm.actors = pyFlattenL [PyVal.listv [PyVal.obj rWa, PyVal.obj rWb],
          PyVal.obj rWc]) := by
  constructor
  · exact init_flattening_amended.1
      [PyVal.listv [PyVal.obj rWa, PyVal.obj rWb], PyVal.obj rWc] (by decide)
  · refine init_flattening_amended.2
      [PyVal.listv [PyVal.obj rWa, PyVal.obj rWb], PyVal.obj rWc] (by decide) ?_
    have hfl : pyFlattenL [PyVal.listv [PyVal.obj rWa, PyVal.obj rWb], PyVal.obj rWc]
        = [PyVal.obj rWa, PyVal.obj rWb, PyVal.obj rWc] := by
      simp [pyFlattenL]
    rw [hfl]
    decide

/-- C4 counterexample: a first element exposing a `top` attribute but no
`base` attribute makes the construction raise `AttributeError`, while the
claim requires construction never to fail on this step (and to leave both
anchors unset when the pair is not exposed). -/
theorem base_top_copy_can_fail_cex :
    assemblyInit [PyVal.listv [PyVal.obj rWtop]] = .error .attributeError := rfl

/-- C4 amended: the constructor checks only for a `top` attribute on the
first element of the flattened sequence: when the first element exposes
both `base` and `top` they are copied onto the assembly; when it does not
expose `top` (or the sequence is empty) both anchors are unset; when it
exposes `top` but not `base`, construction fails with an
`AttributeError`. -/
theorem init_base_top_amended (l : List PyVal) :
    (∀ (r : Renderable) (rest : List PyVal), l = PyVal.obj r :: rest →
      ∀ b t : Pt, r.base = some b → r.top = some t →
      ∃ asm, assemblyInit [PyVal.listv l] = .ok asm
        ∧ asm.base = some b ∧ asm.top = some t)
    ∧ (headExposesTop l = false →
      ∃ asm, assemblyInit [PyVal.listv l] = .ok asm
        ∧ asm.base = Option.none ∧ asm.top = Option.none)
    ∧ (∀ (r : Renderable) (rest : List PyVal), l = PyVal.obj r :: rest →
      r.top.isSome = true → r.base = Option.none →
      assemblyInit [PyVal.listv l] = .error .attributeError) := by
  refine ⟨?_, ?_, ?_⟩
  · intro r rest hl b t hb ht
    subst hl
    have hbt : assemblyBaseTop (PyVal.obj r :: rest) = .ok (some b, some t) := by
      simp [assemblyBaseTop, hb, ht]
    exact ⟨_, assemblyInit_listArg _ _ hbt, rfl, rfl⟩
  · intro h
    have hbt : assemblyBaseTop l = .ok (Option.none, Option.none) := by
      cases l with
      | nil => rfl
      | cons m rest =>
          cases m with
          | obj r =>
              have htop : r.top.isSome = false := by
                simpa [headExposesTop, PyVal.hasTop] using h
              simp [assemblyBaseTop, htop]
          | listv l2 => rfl
          | none => rfl
    exact ⟨_, assemblyInit_listArg _ _ hbt, rfl, rfl⟩
  · intro r rest hl ht hb
    subst hl
    have hbt : assemblyBaseTop (PyVal.obj r :: rest) = .error .attributeError := by
      simp [assemblyBaseTop, ht, hb]
    exact assemblyInit_err _ _ (extractMeshs_single _) hbt

/-- Witness for the amended C4: a first element with both anchors has them
copied, a first element without `top` leaves both unset, and a first
element with `top` but no `base` aborts construction. -/
theorem init_base_top_amended_witness :
    (∃ asm, assemblyInit [PyVal.listv [PyVal.obj rWbt]] = .ok asm
      ∧ asm.base = some (0, 0, 0) ∧ asm.top = some (0, 0, 9))
    ∧ (∃ asm, assemblyInit [PyVal.listv [PyVal.obj rWa]] = .ok asm
      ∧ asm.base = Option.none ∧ asm.top = Option.none)
    ∧ assemblyInit [PyVal.listv [PyVal.obj rWtop]] = .error .attributeError := by
  refine ⟨?_, ?_, ?_⟩
  · exact (init_base_top_amended [PyVal.obj rWbt]).1 rWbt [] rfl
      (0, 0, 0) (0, 0, 9) rfl rfl
  · exact (init_base_top_amended [PyVal.obj rWa]).2.1 (by decide)
  · exact (init_base_top_amended [PyVal.obj rWtop]).2.2 rWtop [] rfl (by decide) rfl

/-- C1: for every non-empty list of sources all having the first source's
point count, `procrustesAlignment` returns an `Assembly` (for any behaviour
of the external filter) whose stored parts number exactly as many as the
input sources and appear in input order: the `j`-th stored part is a mesh
wrapping the `j`-th aligned output block. -/
theorem procrustes_returns_parts_in_order (f : ProcrustesFilter) (fresh : Nat)
    (sources : List Renderable) (rigid : Bool) (s0 : Renderable) (rest : List Renderable)
    (hs : sources = s0 :: rest)
    (hN : ∀ s ∈ sources, s.N = s0.N) :
    ∃ asm, procrustesAlignment f fresh sources rigid = .ok (asm, sources)
      ∧ asm.actors.length = sources.length
      ∧ ∀ j, j < sources.length → ∃ m : Renderable,
          asm.actors.get? j = some (.obj m)
          ∧ m.pts = getBlock (f rigid (sources.map Renderable.polydata)).blocks j := by
  subst hs
  have hg : groupInputs s0 (s0 :: rest) = .ok ((s0 :: rest).map Renderable.polydata) :=
    groupInputs_ok s0 (s0 :: rest) hN
  have hacts : (buildActs (f rigid ((s0 :: rest).map Renderable.polydata)).blocks
        fresh 0 (s0 :: rest)).2
      = alignMesh (f rigid ((s0 :: rest).map Renderable.polydata)).blocks (fresh + 0) 0 s0
        :: (buildActs (f rigid ((s0 :: rest).map Renderable.polydata)).blocks
              fresh 1 rest).2 := rfl
  have hbt : assemblyBaseTop
      (((buildActs (f rigid ((s0 :: rest).map Renderable.polydata)).blocks
          fresh 0 (s0 :: rest)).2).map PyVal.obj)
      = .ok (Option.none, Option.none) := by
    rw [hacts, List.map_cons]
    exact assemblyBaseTop_cons_obj_noTop _ _ (alignMesh_top _ _ _ _)
  refine ⟨{ actors := ((buildActs (f rigid ((s0 :: rest).map Renderable.polydata)).blocks
                fresh 0 (s0 :: rest)).2).map PyVal.obj
            parts := (((buildActs (f rigid ((s0 :: rest).map Renderable.polydata)).blocks
                fresh 0 (s0 :: rest)).2).map PyVal.obj).filter PyVal.truthy
            base := Option.none
            top := Option.none
            transform := some (f rigid ((s0 :: rest).map Renderable.polydata)).transform
            infoMean := some (f rigid ((s0 :: rest).map Renderable.polydata)).meanPoints },
      ?_, ?_, ?_⟩
  · rw [procrustesAlignment_cons, hg, exbind_ok, assemblyInit_listArg _ _ hbt,
       exbind_ok, buildActs_fst]
  · show (((buildActs (f rigid ((s0 :: rest).map Renderable.polydata)).blocks
        fresh 0 (s0 :: rest)).2).map PyVal.obj).length = (s0 :: rest).length
    rw [List.length_map, buildActs_len]
  · intro j hj
    have hbg := buildActs_get (f rigid ((s0 :: rest).map Renderable.polydata)).blocks
      fresh (s0 :: rest) 0 j
    have hsj : (s0 :: rest).get? j = some ((s0 :: rest).get ⟨j, hj⟩) :=
      List.get?_eq_get hj
    refine ⟨alignMesh (f rigid ((s0 :: rest).map Renderable.polydata)).blocks
      (fresh + (0 + j)) (0 + j) ((s0 :: rest).get ⟨j, hj⟩), ?_, ?_⟩
    · show (((buildActs (f rigid ((s0 :: rest).map Renderable.polydata)).blocks
          fresh 0 (s0 :: rest)).2).map PyVal.obj).get? j = _
      rw [List.get?_map, hbg, hsj]
      rfl
    · rw [alignMesh_pts, Nat.zero_add]

/-- Witness for C1: two one-point sources through a sample filter yield an
assembly with two parts in input order. -/
theorem procrustes_returns_parts_in_order_witness :
    ∃ asm, procrustesAlignment fW 100 [rWa, rWb] false = .ok (asm, [rWa, rWb])
      ∧ asm.actors.length = [rWa, rWb].length
      ∧ ∀ j, j < [rWa, rWb].length → ∃ m : Renderable,
          asm.actors.get? j = some (.obj m)
          ∧ m.pts = getBlock (fW false ([rWa, rWb].map Renderable.polydata)).blocks j :=
  procrustes_returns_parts_in_order fW 100 [rWa, rWb] false rWa [rWb] rfl (by decide)

/-- C2: whenever some source's point count differs from the first source's,
`procrustesAlignment` raises `RuntimeError` and produces no `Assembly` and
no partial result. -/
theorem procrustes_mismatch_raises (f : ProcrustesFilter) (fresh : Nat)
    (sources : List Renderable) (rigid : Bool) (s0 sBad : Renderable)
    (h0 : sources.head? = some s0) (hmem : sBad ∈ sources) (hne : sBad.N ≠ s0.N) :
    procrustesAlignment f fresh sources rigid = .error .runtimeError := by
  cases sources with
  | nil => simp at h0
  | cons a rest =>
      have ha : a = s0 := by simpa using h0
      subst ha
      have hg : groupInputs a (a :: rest) = .error .runtimeError :=
        groupInputs_error a (a :: rest) sBad hmem hne
      rw [procrustesAlignment_cons, hg, exbind_err]

/-- Witness for C2: a one-point source followed by a two-point source makes
the alignment call raise. -/
theorem procrustes_mismatch_raises_witness :
    procrustesAlignment fW 0 [rWa, rWn2] false = .error .runtimeError :=
  procrustes_mismatch_raises fW 0 [rWa, rWn2] false rWa rWn2 rfl (by decide) (by decide)

/-- C8: `procrustesAlignment` mutates none of its input sources — the
sources threaded through the call come back identical (in particular their
point sets, names and properties are unchanged); the only effects are the
newly created output objects. -/
theorem procrustes_no_mutation (f : ProcrustesFilter) (fresh : Nat)
    (sources : List Renderable) (rigid : Bool) (asm : Assembly)
    (srcOut : List Renderable)
    (h : procrustesAlignment f fresh sources rigid = .ok (asm, srcOut)) :
    srcOut = sources
    ∧ srcOut.map Renderable.pts = sources.map Renderable.pts
    ∧ srcOut.map Renderable.name = sources.map Renderable.name
    ∧ srcOut.map Renderable.prop = sources.map Renderable.prop := by
  have hsrc : srcOut = sources := by
    cases sources with
    | nil =>
        rw [procrustesAlignment_nil] at h
        simp only [Except.ok.injEq, Prod.mk.injEq] at h
        exact h.2.symm
    | cons s0 rest =>
        rw [procrustesAlignment_cons] at h
        obtain ⟨polys, hg, h⟩ := exbind_ok_inv _ _ _ h
        obtain ⟨assem, hA, h⟩ := exbind_ok_inv _ _ _ h
        simp only [Except.ok.injEq, Prod.mk.injEq] at h
        rw [← h.2, buildActs_fst]
  exact ⟨hsrc, by rw [hsrc], by rw [hsrc], by rw [hsrc]⟩

/-- Witness for C8: a concrete aligned call hands back its single source
unchanged. -/
theorem procrustes_no_mutation_witness :
    [rWa] = [rWa]
    ∧ [rWa].map Renderable.pts = [rWa].map Renderable.pts
    ∧ [rWa].map Renderable.name = [rWa].map Renderable.name
    ∧ [rWa].map Renderable.prop = [rWa].map Renderable.prop :=
  procrustes_no_mutation fW 3 [rWa] false
    ({ actors := [PyVal.obj (alignMesh (fW false [[(0, 0, 0)]]).blocks 3 0 rWa)]
       parts := [PyVal.obj (alignMesh (fW false [[(0, 0, 0)]]).blocks 3 0 rWa)]
       base := Option.none
       top := Option.none
       transform := some 7
       infoMean := some [] }) [rWa] (by rfl)

/-- C7: cloning an `Assembly` whose stored actors all support cloning
produces a new `Assembly` with the same number of parts, in the same order,
where each part is a distinct object from the corresponding source part
(fresh identity) with equivalent content. -/
theorem clone_same_order_distinct_objects (asm : Assembly) (fresh : Nat)
    (hobj : ∀ a ∈ asm.actors, ∃ r : Renderable, a = PyVal.obj r)
    (hid : ∀ r : Renderable, PyVal.obj r ∈ asm.actors → r.rid < fresh)
    (hsafe : headSafe asm.actors = true) :
    ∃ asm2, asm.cloneA fresh = .ok asm2
      ∧ asm2.actors.length = asm.actors.length
      ∧ ∀ j, j < asm.actors.length → ∃ r r2 : Renderable,
          asm.actors.get? j = some (.obj r)
          ∧ asm2.actors.get? j = some (.obj r2)
          ∧ r2.content = r.content
          ∧ r2 ≠ r := by
  obtain ⟨l2, hl2, hlen, hget⟩ := cloneActors_ok asm.actors fresh hobj
  have hsafe2 : headSafe l2 = true := by
    cases hA : asm.actors with
    | nil =>
        have hnil : l2 = [] := by
          have : l2.length = 0 := by rw [hlen, hA]; rfl
          exact List.length_eq_zero.mp this
        rw [hnil]
        rfl
    | cons a rest =>
        obtain ⟨r0, hr0⟩ := hobj a (by rw [hA]; simp)
        subst hr0
        have h0 : asm.actors.get? 0 = some (.obj r0) := by rw [hA]; rfl
        have h2 := hget 0 r0 h0
        cases hB : l2 with
        | nil => rw [hB] at h2; simp at h2
        | cons b rest2 =>
            rw [hB] at h2
            simp only [List.get?_cons_zero, Option.some.injEq] at h2
            rw [hA] at hsafe
            rw [h2]
            simpa [headSafe, Renderable.cloneR] using hsafe
  obtain ⟨bt, hbt⟩ := assemblyBaseTop_isOk l2 hsafe2
  have hclone : asm.cloneA fresh
      = .ok ⟨l2, l2.filter PyVal.truthy, bt.1, bt.2, Option.none, Option.none⟩ := by
    have h1 : asm.cloneA fresh = (cloneActors fresh asm.actors).bind fun newlist =>
        assemblyInit [PyVal.listv newlist] := rfl
    rw [h1, hl2, exbind_ok]
    exact assemblyInit_listArg l2 bt hbt
  refine ⟨_, hclone, hlen, ?_⟩
  intro j hj
  have hjget : asm.actors.get? j = some (asm.actors.get ⟨j, hj⟩) := List.get?_eq_get hj
  obtain ⟨r, hr⟩ := hobj (asm.actors.get ⟨j, hj⟩) (asm.actors.get_mem j hj)
  rw [hr] at hjget
  have h2 := hget j r hjget
  refine ⟨r, r.cloneR (fresh + j), hjget, h2, rfl, ?_⟩
  intro heq
  have hrid : (r.cloneR (fresh + j)).rid = fresh + j := rfl
  have hlt : r.rid < fresh := hid r (by rw [← hr]; exact asm.actors.get_mem j hj)
  rw [heq] at hrid
  omega

/-- Witness for C7: cloning the sample two-actor assembly with fresh
identities starting at 10. -/
theorem clone_same_order_distinct_objects_witness :
    ∃ asm2, asmW.cloneA 10 = .ok asm2
      ∧ asm2.actors.length = asmW.actors.length
      ∧ ∀ j, j < asmW.actors.length → ∃ r r2 : Renderable,
          asmW.actors.get? j = some (.obj r)
          ∧ asm2.actors.get? j = some (.obj r2)
          ∧ r2.content = r.content
          ∧ r2 ≠ r := by
  refine clone_same_order_distinct_objects asmW 10 ?_ ?_ (by decide)
  · intro a ha
    simp only [asmW] at ha
    simp only [List.mem_cons, List.not_mem_nil, or_false] at ha
    rcases ha with h | h
    · exact ⟨rWa, h⟩
    · exact ⟨rWb, h⟩
  · intro r hr
    simp only [asmW] at hr
    simp only [List.mem_cons, List.not_mem_nil, or_false, PyVal.obj.injEq] at hr
    rcases hr with h | h <;> subst h <;> decide

end Vedo
